import Mathlib

/-!
Verification of the pr-opener run orchestrator (src/index.js).

The program is a sequential script: load config, load and prune the
notification ledger, fetch PRs, diff against the ledger, open tabs,
notify, persist.  The pure core of that control flow is embedded below:

* `cleanupOldNotified` embeds the function of the same name
  (src/index.js lines 231-241): the retention-based prune.
* `key` embeds the arrow function `key` (line 296).
* `jsSliceTo` embeds JavaScript `Array.prototype.slice(0, end)` as used
  at line 298, including the negative-end semantics of ECMAScript.
* `openTabs` embeds the open loop (lines 301-305) together with
  `openTab` (lines 266-279): `dryRun` reports success without invoking
  the browser command, otherwise the command is invoked and success is
  whatever the external call reports (modelled by the oracle `execOk`,
  indexed by the position of the attempt).
* `main` embeds the orchestrator `main` (lines 281-313), with the
  external world made explicit: the stored ledger, the fetched PR list
  (an empty list also stands for a failed fetch, which the code degrades
  to `[]`), the dry-run flag, the open-success oracle and the clock.

Timestamps are modelled as integer milliseconds.  A stored timestamp
string is `TimeField.valid t` when `new Date(s).getTime()` yields `t`,
and `TimeField.invalid` when it yields `NaN`; an absent or falsy (empty)
field is `none`.
-/

namespace PROpener

/-- A ledger timestamp string: either it parses to a millisecond value,
or it is a truthy string whose `new Date(...).getTime()` is `NaN`. -/
inductive TimeField where
  | valid (t : Int)
  | invalid
  deriving DecidableEq

/-- A notification-ledger entry: JSON object `{ at, notifiedAt, title }`.
The JSON field `at` is a Lean keyword, so it is named `atF` here. -/
structure Entry where
  atF : Option TimeField
  notifiedAt : Option TimeField
  title : String
  deriving DecidableEq

/-- The ledger, a JSON object: an insertion-ordered map from the PR
identity key to its entry. -/
abbrev Ledger := List (String × Entry)

/-- `24 * 60 * 60 * 1000`, from `retentionDays * 24 * 60 * 60 * 1000`. -/
def msPerDay : Int := 24 * 60 * 60 * 1000

/-- `const timestamp = value.at || value.notifiedAt` followed by
`new Date(timestamp).getTime()`: the first truthy field is taken, and
the result is a number only when that field parses (no fallback to
`notifiedAt` when `at` is truthy but unparseable). -/
def resolvedTime (e : Entry) : Option Int :=
  match e.atF with
  | some (TimeField.valid t) => some t
  | some TimeField.invalid => none
  | none =>
    match e.notifiedAt with
    | some (TimeField.valid t) => some t
    | some TimeField.invalid => none
    | none => none

/-- The filter body of `cleanupOldNotified`:
`timestamp && new Date(timestamp).getTime() > cutoff`. -/
def keepEntry (cutoff : Int) (e : Entry) : Bool :=
  match resolvedTime e with
  | some t => decide (cutoff < t)
  | none => false

/-- src/index.js lines 231-241: keep exactly the entries whose resolved
timestamp is strictly newer than `now - retentionDays` days. -/
def cleanupOldNotified (notified : Ledger) (retentionDays : Int) (now : Int) : Ledger :=
  notified.filter fun kv => keepEntry (now - retentionDays * msPerDay) kv.2

/-- `repository: { nameWithOwner }` of a fetched PR record. -/
structure Repository where
  nameWithOwner : String
  deriving DecidableEq

/-- A fetched PR record: `{ number, url, repository, title, updatedAt }`. -/
structure PR where
  number : Nat
  url : String
  repository : Repository
  title : String
  updatedAt : String
  deriving DecidableEq

/-- src/index.js line 296: the identity key
`` `${pr.repository.nameWithOwner}#${pr.number}` ``. -/
def key (pr : PR) : String :=
  pr.repository.nameWithOwner ++ "#" ++ toString pr.number

/-- JavaScript property read `notified[k]` on the ledger object. -/
def ledgerLookup : Ledger → String → Option Entry
  | [], _ => none
  | (k1, v) :: rest, k => if k1 = k then some v else ledgerLookup rest k

/-- JavaScript property write `notified[k] = v`: an existing key is
overwritten in place, a new key is appended. -/
def ledgerInsert : Ledger → String → Entry → Ledger
  | [], k, v => [(k, v)]
  | (k1, v1) :: rest, k, v =>
    if k1 = k then (k, v) :: rest else (k1, v1) :: ledgerInsert rest k v

/-- ECMAScript `l.slice(0, e)`: a negative end counts from the end of
the array, and the end is clamped to the length. -/
def jsSliceTo {α : Type} (l : List α) (e : Int) : List α :=
  l.take (if e < 0 then max ((l.length : Int) + e) 0 else min e (l.length : Int)).toNat

/-- Whether `openTab` (src/index.js lines 266-279) reports success for
the `i`-th attempted open of the run: in dry-run mode it returns `true`
without invoking the browser command, otherwise success is whatever the
external invocation reports. -/
def openSuccess (dryRun : Bool) (execOk : Nat → Bool) (i : Nat) : Bool :=
  if dryRun then true else execOk i

/-- The entry written on a successful open (src/index.js line 303):
`{ at: new Date().toISOString(), title: pr.title }`. -/
def notifiedEntry (now : Int) (pr : PR) : Entry :=
  { atF := some (TimeField.valid now), notifiedAt := none, title := pr.title }

/-- What the open loop produces: the updated ledger, how many opens
reported success, and the URLs actually passed to the external browser
command (none in dry-run mode). -/
structure OpenOutcome where
  ledger : Ledger
  opened : Nat
  launches : List String

/-- src/index.js lines 301-305: for each selected PR, attempt the open;
on success record `notifiedEntry`.  `i` is the position of the attempt. -/
def openTabs (dryRun : Bool) (execOk : Nat → Bool) (now : Int) :
    List PR → Nat → Ledger → OpenOutcome
  | [], _, led => ⟨led, 0, []⟩
  | pr :: rest, i, led =>
    let ok := openSuccess dryRun execOk i
    let led1 := if ok then ledgerInsert led (key pr) (notifiedEntry now pr) else led
    let out := openTabs dryRun execOk now rest (i + 1) led1
    ⟨out.ledger, (if ok then 1 else 0) + out.opened,
      (if dryRun then [] else [pr.url]) ++ out.launches⟩

/-- Specification device (not part of the source): the last PR of the
list whose key is `k` and whose open (at its loop position, starting
from `i`) reported success.  `openTabs` leaves exactly this PR's entry
under `k` in the ledger, because later successful writes overwrite
earlier ones. -/
def lastNotifiedWithKey (d : Bool) (e : Nat → Bool) (k : String) :
    List PR → Nat → Option PR
  | [], _ => none
  | pr :: rest, i =>
    match lastNotifiedWithKey d e k rest (i + 1) with
    | some q => some q
    | none =>
      if key pr = k then (if openSuccess d e i then some pr else none) else none

/-- Specification device: the last PR of the list whose key is `k`
(what `lastNotifiedWithKey` degenerates to when every open succeeds). -/
def lastWithKey (k : String) : List PR → Option PR
  | [] => none
  | pr :: rest =>
    match lastWithKey k rest with
    | some q => some q
    | none => if key pr = k then some pr else none

/-- The configuration record with the defaults of `loadConfig`. -/
structure Config where
  maxTabsToOpen : Int
  paused : Bool
  excludeDraft : Bool
  notifiedRetentionDays : Int
  enableNotification : Bool

/-- src/index.js line 298: the Diff step.  Keep the fetched PRs whose
key is absent from the pruned ledger, then `slice(0, maxTabsToOpen)`. -/
def selectedPRs (cfg : Config) (stored : Ledger) (prs : List PR) (now : Int) : List PR :=
  jsSliceTo
    (prs.filter fun pr =>
      (ledgerLookup (cleanupOldNotified stored cfg.notifiedRetentionDays now) (key pr)).isNone)
    cfg.maxTabsToOpen

/-- The observable outcome of one run: the ledger passed to
`saveNotified` (none when the run stopped at the paused check and never
saved), the PRs selected for opening, the URLs passed to the external
browser command, the number of opens that reported success, and whether
`sendNotification` was invoked. -/
structure RunTrace where
  savedLedger : Option Ledger
  attempted : List PR
  launches : List String
  openedCount : Nat
  notificationSent : Bool

/-- src/index.js lines 281-313: one orchestrator pass, with the external
world explicit.  `prs` is what `fetchPRs` returned (an empty list also
stands for a failed fetch, which the code degrades to `[]`). -/
def main (cfg : Config) (stored : Ledger) (prs : List PR) (dryRun : Bool)
    (execOk : Nat → Bool) (now : Int) : RunTrace :=
  if cfg.paused then ⟨none, [], [], 0, false⟩
  else if prs.isEmpty then
    ⟨some (cleanupOldNotified stored cfg.notifiedRetentionDays now), [], [], 0, false⟩
  else
    let out := openTabs dryRun execOk now (selectedPRs cfg stored prs now) 0
      (cleanupOldNotified stored cfg.notifiedRetentionDays now)
    ⟨some out.ledger, selectedPRs cfg stored prs now, out.launches, out.opened,
      decide (0 < (selectedPRs cfg stored prs now).length) && cfg.enableNotification⟩

/-! ## Concrete sample data, used by the witness theorems -/

def sampleRepo : Repository := ⟨"octo/widgets"⟩

def samplePR1 : PR := ⟨1, "https://pr.test/1", sampleRepo, "Fix crash", "2026-01-01"⟩

def samplePR2 : PR := ⟨2, "https://pr.test/2", sampleRepo, "Add docs", "2026-01-02"⟩

def samplePR3 : PR := ⟨3, "https://pr.test/3", sampleRepo, "Refactor", "2026-01-03"⟩

/-- The same identity key as `samplePR1` (same repository and number),
with a different title and timestamp. -/
def samplePR1Retitled : PR := ⟨1, "https://pr.test/1", sampleRepo, "Fix crash v2", "2026-01-04"⟩

/-- The defaults of `loadConfig`. -/
def sampleCfg : Config := ⟨5, false, true, 7, true⟩

/-- Defaults except `maxTabsToOpen = 2`. -/
def twoCfg : Config := ⟨2, false, true, 7, true⟩

/-- Defaults except `maxTabsToOpen = -1`. -/
def negCfg : Config := ⟨-1, false, true, 7, true⟩

/-- A ledger holding samplePR1's key, stamped at time 0. -/
def sampleLedger : Ledger :=
  [("octo/widgets#1", ⟨some (TimeField.valid 0), none, "Fix crash"⟩)]

/-- A ledger with one fresh entry and one 10-day-old entry. -/
def staleLedger : Ledger :=
  [("octo/widgets#1", ⟨some (TimeField.valid 0), none, "Fix crash"⟩),
    ("octo/widgets#9", ⟨some (TimeField.valid (-(10 * msPerDay))), none, "Old"⟩)]

/-! ## Helper lemmas -/

theorem ledgerLookup_insert (led : Ledger) (k : String) (v : Entry) (k1 : String) :
    ledgerLookup (ledgerInsert led k v) k1 =
      if k = k1 then some v else ledgerLookup led k1 := by
  induction led with
  | nil => simp [ledgerInsert, ledgerLookup]
  | cons kv rest ih =>
    obtain ⟨k2, v2⟩ := kv
    by_cases h2 : k2 = k
    · subst h2
      by_cases h1 : k2 = k1 <;> simp [ledgerInsert, ledgerLookup, h1]
    · by_cases h1 : k2 = k1
      · subst h1
        have : ¬ k = k2 := fun h => h2 h.symm
        simp [ledgerInsert, ledgerLookup, h2, this]
      · simp [ledgerInsert, ledgerLookup, h2, h1, ih]

theorem keepEntry_eq_true (cutoff : Int) (e : Entry) :
    keepEntry cutoff e = true ↔ ∃ t, resolvedTime e = some t ∧ cutoff < t := by
  unfold keepEntry
  cases h : resolvedTime e <;> simp [h]

theorem jsSliceTo_nonneg {α : Type} (l : List α) (e : Int) (h : 0 ≤ e) :
    jsSliceTo l e = l.take e.toNat := by
  unfold jsSliceTo
  have hneg : ¬ e < 0 := by omega
  simp only [hneg, if_false]
  have h2 : (min e (l.length : Int)).toNat = min e.toNat l.length := by omega
  rw [h2]
  by_cases hle : e.toNat ≤ l.length
  · rw [min_eq_left hle]
  · rw [min_eq_right (by omega), List.take_length,
      List.take_of_length_le (by omega)]

theorem jsSliceTo_of_length_le {α : Type} (l : List α) (e : Int)
    (h : (l.length : Int) ≤ e) : jsSliceTo l e = l := by
  rw [jsSliceTo_nonneg l e (by omega)]
  exact List.take_of_length_le (by omega)

theorem selectedPRs_key_absent (cfg : Config) (stored : Ledger) (prs : List PR)
    (now : Int) (pr : PR) (h : pr ∈ selectedPRs cfg stored prs now) :
    ledgerLookup (cleanupOldNotified stored cfg.notifiedRetentionDays now) (key pr) = none := by
  unfold selectedPRs jsSliceTo at h
  have h2 := (List.take_sublist _ _).mem h
  have h3 := (List.mem_filter.mp h2).2
  simpa [Option.isNone_iff_eq_none] using h3

theorem openTabs_ledger_lookup (d : Bool) (e : Nat → Bool) (now : Int)
    (l : List PR) (i : Nat) (led : Ledger) (k : String) :
    ledgerLookup (openTabs d e now l i led).ledger k =
      match lastNotifiedWithKey d e k l i with
      | some q => some (notifiedEntry now q)
      | none => ledgerLookup led k := by
  induction l generalizing i led with
  | nil => simp [openTabs, lastNotifiedWithKey]
  | cons pr rest ih =>
    simp only [openTabs, lastNotifiedWithKey]
    rw [ih]
    cases h : lastNotifiedWithKey d e k rest (i + 1) with
    | some q => simp
    | none =>
      by_cases hk : key pr = k
      · cases hs : openSuccess d e i
        · simp [hk, hs]
        · simp [hk, hs, ledgerLookup_insert]
      · cases hs : openSuccess d e i
        · simp [hk, hs]
        · simp [hk, hs, ledgerLookup_insert]

theorem lastNotifiedWithKey_eq_none (d : Bool) (e : Nat → Bool) (k : String)
    (l : List PR) (i : Nat) (h : ∀ q ∈ l, key q ≠ k) :
    lastNotifiedWithKey d e k l i = none := by
  induction l generalizing i with
  | nil => simp [lastNotifiedWithKey]
  | cons pr rest ih =>
    have hrest := ih (i + 1) fun q hq => h q (List.mem_cons_of_mem _ hq)
    simp [lastNotifiedWithKey, hrest, h pr (List.mem_cons_self _ _)]

theorem lastNotifiedWithKey_of_last (d : Bool) (e : Nat → Bool) (k : String)
    (l : List PR) (i0 j : Nat) (pr : PR)
    (hj : l[j]? = some pr) (hk : key pr = k)
    (hs : openSuccess d e (i0 + j) = true)
    (hlast : ∀ m q, j < m → l[m]? = some q → key q ≠ k) :
    lastNotifiedWithKey d e k l i0 = some pr := by
  induction l generalizing i0 j with
  | nil => simp at hj
  | cons hd rest ih =>
    cases j with
    | zero =>
      simp only [List.getElem?_cons_zero, Option.some.injEq] at hj
      subst hj
      have hrest : lastNotifiedWithKey d e k rest (i0 + 1) = none := by
        apply lastNotifiedWithKey_eq_none
        intro q hq
        obtain ⟨m, hm⟩ := List.mem_iff_getElem?.mp hq
        exact hlast (m + 1) q (Nat.succ_pos m) (by simpa using hm)
      have hs0 : openSuccess d e i0 = true := by simpa using hs
      simp [lastNotifiedWithKey, hrest, hk, hs0]
    | succ j1 =>
      simp only [List.getElem?_cons_succ] at hj
      have hrest := ih (i0 + 1) j1 hj
        (by rw [show i0 + 1 + j1 = i0 + (j1 + 1) from by omega]; exact hs)
        (fun m q hm hq => hlast (m + 1) q (by omega) (by simpa using hq))
      simp [lastNotifiedWithKey, hrest]

theorem lastNotifiedWithKey_of_fail (d : Bool) (e : Nat → Bool) (k : String)
    (l : List PR) (i0 j : Nat) (pr : PR)
    (hj : l[j]? = some pr) (hk : key pr = k)
    (hs : openSuccess d e (i0 + j) = false)
    (honly : ∀ m q, m ≠ j → l[m]? = some q → key q ≠ k) :
    lastNotifiedWithKey d e k l i0 = none := by
  induction l generalizing i0 j with
  | nil => simp at hj
  | cons hd rest ih =>
    cases j with
    | zero =>
      simp only [List.getElem?_cons_zero, Option.some.injEq] at hj
      subst hj
      have hrest : lastNotifiedWithKey d e k rest (i0 + 1) = none := by
        apply lastNotifiedWithKey_eq_none
        intro q hq
        obtain ⟨m, hm⟩ := List.mem_iff_getElem?.mp hq
        exact honly (m + 1) q (Nat.succ_ne_zero m) (by simpa using hm)
      have hs0 : openSuccess d e i0 = false := by simpa using hs
      simp [lastNotifiedWithKey, hrest, hk, hs0]
    | succ j1 =>
      have hhd : key hd ≠ k := honly 0 hd (by omega) (by simp)
      simp only [List.getElem?_cons_succ] at hj
      have hrest := ih (i0 + 1) j1 hj
        (by rw [show i0 + 1 + j1 = i0 + (j1 + 1) from by omega]; exact hs)
        (fun m q hm hq => honly (m + 1) q (by omega) (by simpa using hq))
      simp [lastNotifiedWithKey, hrest, hhd]

theorem openTabs_opened_of_all_success (d : Bool) (e : Nat → Bool) (now : Int)
    (l : List PR) (i : Nat) (led : Ledger)
    (h : ∀ n, openSuccess d e n = true) :
    (openTabs d e now l i led).opened = l.length := by
  induction l generalizing i led with
  | nil => simp [openTabs]
  | cons pr rest ih => simp [openTabs, h, ih]; omega

theorem openTabs_launches_dry (e : Nat → Bool) (now : Int)
    (l : List PR) (i : Nat) (led : Ledger) :
    (openTabs true e now l i led).launches = [] := by
  induction l generalizing i led with
  | nil => simp [openTabs]
  | cons pr rest ih => simp [openTabs, ih]

theorem openTabs_congr_success (d1 : Bool) (e1 : Nat → Bool) (d2 : Bool)
    (e2 : Nat → Bool) (now : Int) (l : List PR) (i : Nat) (led : Ledger)
    (h : ∀ n, openSuccess d1 e1 n = openSuccess d2 e2 n) :
    (openTabs d1 e1 now l i led).ledger = (openTabs d2 e2 now l i led).ledger ∧
      (openTabs d1 e1 now l i led).opened = (openTabs d2 e2 now l i led).opened := by
  induction l generalizing i led with
  | nil => simp [openTabs]
  | cons pr rest ih =>
    simp only [openTabs, h i]
    exact ⟨(ih (i + 1) _).1, by rw [(ih (i + 1) _).2]⟩

theorem lastNotifiedWithKey_of_all_success (d : Bool) (e : Nat → Bool)
    (k : String) (l : List PR) (i : Nat)
    (h : ∀ n, openSuccess d e n = true) :
    lastNotifiedWithKey d e k l i = lastWithKey k l := by
  induction l generalizing i with
  | nil => simp [lastNotifiedWithKey, lastWithKey]
  | cons pr rest ih =>
    simp only [lastNotifiedWithKey, lastWithKey, ih (i + 1), h i]
    cases lastWithKey k rest <;> simp

theorem lastWithKey_eq_none (k : String) (l : List PR)
    (h : ∀ q ∈ l, key q ≠ k) : lastWithKey k l = none := by
  induction l with
  | nil => simp [lastWithKey]
  | cons pr rest ih =>
    have hrest := ih fun q hq => h q (List.mem_cons_of_mem _ hq)
    simp [lastWithKey, hrest, h pr (List.mem_cons_self _ _)]

theorem lastWithKey_isSome_of_mem (k : String) (l : List PR) (pr : PR)
    (hmem : pr ∈ l) (hk : key pr = k) : (lastWithKey k l).isSome = true := by
  induction l with
  | nil => simp at hmem
  | cons hd rest ih =>
    rcases List.mem_cons.mp hmem with h1 | h1
    · subst h1
      cases h : lastWithKey k rest <;> simp [lastWithKey, h, hk]
    · have := ih h1
      cases h : lastWithKey k rest <;> simp [lastWithKey, h] at this ⊢

theorem lastWithKey_filter (k : String) (p : PR → Bool) (l : List PR)
    (h : ∀ q, key q = k → p q = true) :
    lastWithKey k (l.filter p) = lastWithKey k l := by
  induction l with
  | nil => simp [lastWithKey]
  | cons pr rest ih =>
    cases hp : p pr
    · have hk : key pr ≠ k := fun hkk => by simp [h pr hkk] at hp
      rw [List.filter_cons_of_neg (by simp [hp])]
      rw [ih]
      simp only [lastWithKey]
      cases lastWithKey k rest <;> simp [hk]
    · rw [List.filter_cons_of_pos (by simp [hp])]
      simp only [lastWithKey, ih]

theorem lastWithKey_of_last (k : String) (l : List PR) (j : Nat) (pr : PR)
    (hj : l[j]? = some pr) (hk : key pr = k)
    (hlast : ∀ m q, j < m → l[m]? = some q → key q ≠ k) :
    lastWithKey k l = some pr := by
  induction l generalizing j with
  | nil => simp at hj
  | cons hd rest ih =>
    cases j with
    | zero =>
      simp only [List.getElem?_cons_zero, Option.some.injEq] at hj
      subst hj
      have hrest : lastWithKey k rest = none := by
        apply lastWithKey_eq_none
        intro q hq
        obtain ⟨m, hm⟩ := List.mem_iff_getElem?.mp hq
        exact hlast (m + 1) q (Nat.succ_pos m) (by simpa using hm)
      simp [lastWithKey, hrest, hk]
    | succ j1 =>
      simp only [List.getElem?_cons_succ] at hj
      have hrest := ih j1 hj
        (fun m q hm hq => hlast (m + 1) q (by omega) (by simpa using hq))
      simp [lastWithKey, hrest]

theorem main_run (cfg : Config) (stored : Ledger) (prs : List PR) (dryRun : Bool)
    (execOk : Nat → Bool) (now : Int) (hp : cfg.paused = false) (hne : prs ≠ []) :
    main cfg stored prs dryRun execOk now =
      ⟨some (openTabs dryRun execOk now (selectedPRs cfg stored prs now) 0
          (cleanupOldNotified stored cfg.notifiedRetentionDays now)).ledger,
        selectedPRs cfg stored prs now,
        (openTabs dryRun execOk now (selectedPRs cfg stored prs now) 0
          (cleanupOldNotified stored cfg.notifiedRetentionDays now)).launches,
        (openTabs dryRun execOk now (selectedPRs cfg stored prs now) 0
          (cleanupOldNotified stored cfg.notifiedRetentionDays now)).opened,
        decide (0 < (selectedPRs cfg stored prs now).length) && cfg.enableNotification⟩ := by
  have hie : prs.isEmpty = false := by
    cases prs
    · exact absurd rfl hne
    · rfl
  simp [main, hp, hie]

theorem main_attempted_cases (cfg : Config) (stored : Ledger) (prs : List PR)
    (dryRun : Bool) (execOk : Nat → Bool) (now : Int) :
    (main cfg stored prs dryRun execOk now).attempted = [] ∨
      (main cfg stored prs dryRun execOk now).attempted =
        selectedPRs cfg stored prs now := by
  by_cases hp : cfg.paused = true
  · left; simp [main, hp]
  · by_cases he : prs = []
    · left; subst he; simp [main, hp]
    · right
      rw [main_run cfg stored prs dryRun execOk now (by simpa using hp) he]

theorem nodup_key_unique (l : List PR) (i : Nat) (pr : PR)
    (hnd : (l.map key).Nodup) (hi : l[i]? = some pr) :
    ∀ m q, m ≠ i → l[m]? = some q → key q ≠ key pr := by
  intro m q hmi hm hkq
  have h1 : (l.map key)[i]? = some (key pr) := by rw [List.getElem?_map, hi]; rfl
  have h2 : (l.map key)[m]? = some (key pr) := by rw [List.getElem?_map, hm, ← hkq]; rfl
  have hmlt : m < (l.map key).length := by
    by_contra hge
    rw [List.getElem?_eq_none (by omega)] at h2
    exact absurd h2 (by simp)
  exact hmi (List.getElem?_inj hmlt hnd (h2.trans h1.symm))

theorem two_le_countP {α : Type} (p : α → Bool) (l : List α) (i j : Nat) (a b : α)
    (hij : i < j) (hi : l[i]? = some a) (hj : l[j]? = some b)
    (ha : p a = true) (hb : p b = true) : 2 ≤ l.countP p := by
  induction l generalizing i j with
  | nil => simp at hi
  | cons hd rest ih =>
    cases i with
    | zero =>
      simp only [List.getElem?_cons_zero, Option.some.injEq] at hi
      subst hi
      cases j with
      | zero => omega
      | succ j1 =>
        simp only [List.getElem?_cons_succ] at hj
        have h1 : 0 < rest.countP p :=
          List.countP_pos_iff.mpr ⟨b, List.getElem?_mem hj, hb⟩
        rw [List.countP_cons, ha, if_pos rfl]
        omega
    | succ i1 =>
      cases j with
      | zero => omega
      | succ j1 =>
        simp only [List.getElem?_cons_succ] at hi hj
        have h2 := ih i1 j1 (by omega) hi hj
        rw [List.countP_cons]
        split <;> omega

theorem openSuccess_all (dryRun : Bool) (execOk : Nat → Bool)
    (hok : ∀ n, execOk n = true) : ∀ n, openSuccess dryRun execOk n = true := by
  intro n
  cases dryRun <;> simp [openSuccess, hok]

/-! ## C2 and C3: the prune function -/

/-- C2: `cleanupOldNotified` returns exactly the input entries whose
resolved timestamp (`at` preferred, else legacy `notifiedAt`) is
strictly newer than `now - retentionDays` days, each with its value
unchanged (the output is a sublist of the input, so order and values are
preserved); entries with no resolvable timestamp are dropped.  The
function is pure by construction: it reads nothing but its arguments and
only returns the new mapping. -/
theorem cleanup_keeps_exactly_fresh_entries (led : Ledger) (R now : Int)
    (k : String) (e : Entry) :
    (cleanupOldNotified led R now).Sublist led ∧
      ((k, e) ∈ cleanupOldNotified led R now ↔
        (k, e) ∈ led ∧ ∃ t, resolvedTime e = some t ∧ now - R * msPerDay < t) := by
  constructor
  · exact List.filter_sublist led
  · rw [show cleanupOldNotified led R now =
      led.filter (fun kv => keepEntry (now - R * msPerDay) kv.2) from rfl,
      List.mem_filter]
    constructor
    · rintro ⟨hmem, hk⟩
      exact ⟨hmem, (keepEntry_eq_true _ _).mp hk⟩
    · rintro ⟨hmem, ht⟩
      exact ⟨hmem, (keepEntry_eq_true _ _).mpr ht⟩

/-- C3: pruning is idempotent — applying `cleanupOldNotified` twice with
the same retention and the same reference time equals applying it once. -/
theorem cleanup_idempotent (led : Ledger) (R now : Int) :
    cleanupOldNotified (cleanupOldNotified led R now) R now =
      cleanupOldNotified led R now := by
  unfold cleanupOldNotified
  exact List.filter_eq_self.mpr fun a ha => (List.mem_filter.mp ha).2

/-! ## C1: a ledger key is never reopened -/

/-- C1: in every run, a fetched PR whose identity key is present in the
pruned ledger is never selected for opening — no selected PR (hence no
tab-open attempt) carries its key, regardless of title or updatedAt.
Only PRs whose key is absent from the pruned ledger can be opened. -/
theorem ledger_key_never_reopened (cfg : Config) (stored : Ledger)
    (prs : List PR) (dryRun : Bool) (execOk : Nat → Bool) (now : Int) (pr : PR)
    (hmem : pr ∈ prs)
    (hled : (ledgerLookup (cleanupOldNotified stored cfg.notifiedRetentionDays now)
      (key pr)).isSome = true) :
    ((main cfg stored prs dryRun execOk now).attempted.all
      fun q => decide (key q ≠ key pr)) = true := by
  rw [List.all_eq_true]
  intro q hq
  rcases main_attempted_cases cfg stored prs dryRun execOk now with hc | hc
  · rw [hc] at hq
    simp at hq
  · rw [hc] at hq
    have habs := selectedPRs_key_absent cfg stored prs now q hq
    simp only [decide_eq_true_eq]
    intro hkeq
    rw [← hkeq, habs] at hled
    simp at hled

/-- Witness for C1: with PR octo/widgets#1 recorded in the ledger at
time 0 and retention 7 days, a run at time 0 fetching that PR (and
another) never selects anything with its key. -/
theorem ledger_key_never_reopened_witness :
    samplePR1 ∈ [samplePR1, samplePR2] ∧
      (ledgerLookup (cleanupOldNotified sampleLedger sampleCfg.notifiedRetentionDays 0)
        (key samplePR1)).isSome = true ∧
      ((main sampleCfg sampleLedger [samplePR1, samplePR2] false (fun _ => true) 0).attempted.all
        fun q => decide (key q ≠ key samplePR1)) = true :=
  ⟨by decide, by decide,
    ledger_key_never_reopened sampleCfg sampleLedger [samplePR1, samplePR2] false
      (fun _ => true) 0 samplePR1 (by decide) (by decide)⟩

/-! ## C6: when the aggregate notification fires -/

/-- Counterexample to C6 as stated: one PR is selected, its (non-dry-run)
open fails, `enableNotification` is true — yet the notification is sent
even though zero tabs were opened.  The code gates the notification on
`newPRs.length > 0`, not on any open having succeeded. -/
theorem notification_sent_despite_failed_open :
    (main sampleCfg [] [samplePR1] false (fun _ => false) 0).notificationSent = true ∧
      (main sampleCfg [] [samplePR1] false (fun _ => false) 0).openedCount = 0 := by
  decide

/-- C6 amended: the aggregate notification is sent iff at least one PR
was selected for opening (`newPRs` nonempty) and `enableNotification` is
true — regardless of whether any of the attempted opens succeeded. -/
theorem notification_iff_selected_and_enabled (cfg : Config) (stored : Ledger)
    (prs : List PR) (dryRun : Bool) (execOk : Nat → Bool) (now : Int) :
    (main cfg stored prs dryRun execOk now).notificationSent =
      (!(main cfg stored prs dryRun execOk now).attempted.isEmpty &&
        cfg.enableNotification) := by
  by_cases hp : cfg.paused = true
  · simp [main, hp]
  · by_cases he : prs = []
    · subst he; simp [main, hp]
    · rw [main_run cfg stored prs dryRun execOk now (by simpa using hp) he]
      cases selectedPRs cfg stored prs now <;> simp

/-! ## C9: an empty fetch still persists the pruned ledger -/

/-- C9: a run whose fetch returns zero PRs (which is also what a failed
fetch degrades to) still persists the ledger, and what it persists is
exactly the pruned ledger computed at the start of the run. -/
theorem empty_fetch_persists_pruned_ledger (cfg : Config) (stored : Ledger)
    (prs : List PR) (dryRun : Bool) (execOk : Nat → Bool) (now : Int)
    (hp : cfg.paused = false) (he : prs = []) :
    (main cfg stored prs dryRun execOk now).savedLedger =
      some (cleanupOldNotified stored cfg.notifiedRetentionDays now) := by
  subst he
  simp [main, hp]

/-- Witness for C9: an empty fetch over a ledger with one fresh and one
stale entry persists exactly the pruned ledger. -/
theorem empty_fetch_persists_pruned_ledger_witness :
    sampleCfg.paused = false ∧
      (main sampleCfg staleLedger [] false (fun _ => true) 0).savedLedger =
        some (cleanupOldNotified staleLedger sampleCfg.notifiedRetentionDays 0) :=
  ⟨by decide,
    empty_fetch_persists_pruned_ledger sampleCfg staleLedger [] false
      (fun _ => true) 0 (by decide) rfl⟩

/-! ## C4: the Diff step keeps fetch order and truncates -/

/-- C4: the Diff step keeps, in fetch order, the fetched PRs whose key
is absent from the pruned ledger, then truncates to at most
`maxTabsToOpen` entries with no re-sorting.  When none of the `N`
fetched PRs is in the ledger and `maxTabsToOpen = M` is a positive
integer, the selected PRs are the first `min(N, M)` of the fetch in its
original order, and (every open succeeding) that many tabs are opened. -/
theorem diff_truncates_in_fetch_order (cfg : Config) (stored : Ledger)
    (prs : List PR) (dryRun : Bool) (execOk : Nat → Bool) (now : Int)
    (hp : cfg.paused = false) (hM : 0 < cfg.maxTabsToOpen)
    (hnew : ∀ pr ∈ prs,
      ledgerLookup (cleanupOldNotified stored cfg.notifiedRetentionDays now)
        (key pr) = none)
    (hok : ∀ n, execOk n = true) :
    (main cfg stored prs dryRun execOk now).attempted =
        prs.take cfg.maxTabsToOpen.toNat ∧
      (main cfg stored prs dryRun execOk now).openedCount =
        min prs.length cfg.maxTabsToOpen.toNat := by
  by_cases hne : prs = []
  · subst hne
    simp [main, hp]
  · rw [main_run cfg stored prs dryRun execOk now hp hne]
    have hsel : selectedPRs cfg stored prs now = prs.take cfg.maxTabsToOpen.toNat := by
      unfold selectedPRs
      rw [List.filter_eq_self.mpr fun pr hpr => by rw [hnew pr hpr]; rfl,
        jsSliceTo_nonneg _ _ (by omega)]
    constructor
    · exact hsel
    · rw [show (RunTrace.mk (some (openTabs dryRun execOk now
          (selectedPRs cfg stored prs now) 0
          (cleanupOldNotified stored cfg.notifiedRetentionDays now)).ledger)
          (selectedPRs cfg stored prs now) _ _ _).openedCount =
          (openTabs dryRun execOk now (selectedPRs cfg stored prs now) 0
            (cleanupOldNotified stored cfg.notifiedRetentionDays now)).opened from rfl,
        openTabs_opened_of_all_success _ _ _ _ _ _ (openSuccess_all dryRun execOk hok),
        hsel, List.length_take]
      omega

/-- Witness for C4: three fresh PRs, `maxTabsToOpen = 2`: the first two
PRs of the fetch are selected and `min 3 2 = 2` tabs are opened. -/
theorem diff_truncates_in_fetch_order_witness :
    (0 : Int) < twoCfg.maxTabsToOpen ∧
      ((main twoCfg [] [samplePR1, samplePR2, samplePR3] false (fun _ => true) 0).attempted =
          [samplePR1, samplePR2, samplePR3].take twoCfg.maxTabsToOpen.toNat ∧
        (main twoCfg [] [samplePR1, samplePR2, samplePR3] false (fun _ => true) 0).openedCount =
          min [samplePR1, samplePR2, samplePR3].length twoCfg.maxTabsToOpen.toNat) :=
  ⟨by decide,
    diff_truncates_in_fetch_order twoCfg [] [samplePR1, samplePR2, samplePR3] false
      (fun _ => true) 0 (by decide) (by decide) (by decide) (fun _ => rfl)⟩

/-! ## C7: zero or negative maxTabsToOpen -/

/-- Counterexample to C7 as stated: `maxTabsToOpen = -1` is negative,
two fresh PRs are fetched, yet one tab is opened, not zero —
`slice(0, -1)` keeps all but the last element rather than nothing. -/
theorem negative_max_tabs_opens_nonzero :
    negCfg.maxTabsToOpen = -1 ∧
      (main negCfg [] [samplePR1, samplePR2] true (fun _ => true) 0).openedCount = 1 := by
  decide

/-- C7 amended: a zero or negative `maxTabsToOpen` is passed through
unvalidated to `slice(0, maxTabsToOpen)`.  Zero selects nothing, but a
negative value is an offset from the end of the filtered list: with
every open succeeding, `max(filteredCount + maxTabsToOpen, 0)` tabs are
opened — zero only when the magnitude of the negative value is at least
the filtered count. -/
theorem nonpositive_max_tabs_slice_semantics (cfg : Config) (stored : Ledger)
    (prs : List PR) (dryRun : Bool) (execOk : Nat → Bool) (now : Int)
    (hp : cfg.paused = false) (hM : cfg.maxTabsToOpen ≤ 0)
    (hok : ∀ n, execOk n = true) :
    (main cfg stored prs dryRun execOk now).openedCount =
      (if cfg.maxTabsToOpen = 0 then 0
        else (((prs.filter fun pr =>
            (ledgerLookup (cleanupOldNotified stored cfg.notifiedRetentionDays now)
              (key pr)).isNone).length : Int) + cfg.maxTabsToOpen).toNat) := by
  by_cases hne : prs = []
  · subst hne
    simp only [main, hp, Bool.false_eq_true, if_false, List.isEmpty_nil, if_true,
      List.filter_nil, List.length_nil]
    split <;> omega
  · rw [main_run cfg stored prs dryRun execOk now hp hne]
    rw [show (RunTrace.mk (some (openTabs dryRun execOk now
        (selectedPRs cfg stored prs now) 0
        (cleanupOldNotified stored cfg.notifiedRetentionDays now)).ledger)
        (selectedPRs cfg stored prs now) _ _ _).openedCount =
        (openTabs dryRun execOk now (selectedPRs cfg stored prs now) 0
          (cleanupOldNotified stored cfg.notifiedRetentionDays now)).opened from rfl,
      openTabs_opened_of_all_success _ _ _ _ _ _ (openSuccess_all dryRun execOk hok)]
    unfold selectedPRs jsSliceTo
    rw [List.length_take]
    split_ifs <;> omega

/-- Witness for C7 (amended): `maxTabsToOpen = -1` with two fresh PRs
opens `(2 + (-1)).toNat = 1` tab. -/
theorem nonpositive_max_tabs_slice_semantics_witness :
    negCfg.paused = false ∧ negCfg.maxTabsToOpen ≤ 0 ∧
      (main negCfg [] [samplePR1, samplePR2] true (fun _ => true) 0).openedCount =
        (if negCfg.maxTabsToOpen = 0 then 0
          else ((([samplePR1, samplePR2].filter fun pr =>
              (ledgerLookup (cleanupOldNotified [] negCfg.notifiedRetentionDays 0)
                (key pr)).isNone).length : Int) + negCfg.maxTabsToOpen).toNat) :=
  ⟨by decide, by decide,
    nonpositive_max_tabs_slice_semantics negCfg [] [samplePR1, samplePR2] true
      (fun _ => true) 0 (by decide) (by decide) (fun _ => rfl)⟩

/-! ## C8: dry-run opens nothing but records everything -/

/-- C8: in a `--dry-run` invocation no URL is ever passed to the real
browser-launch command, yet `openTab` reports success for every selected
PR: every selected PR ends up recorded in the saved ledger, and the
saved ledger is exactly the one a real run with every open succeeding
would save. -/
theorem dry_run_no_launch_records_as_success (cfg : Config) (stored : Ledger)
    (prs : List PR) (execOk : Nat → Bool) (now : Int) :
    (main cfg stored prs true execOk now).launches = [] ∧
      (main cfg stored prs true execOk now).openedCount =
        (main cfg stored prs true execOk now).attempted.length ∧
      ((main cfg stored prs true execOk now).attempted.all fun pr =>
        (ledgerLookup ((main cfg stored prs true execOk now).savedLedger.getD [])
          (key pr)).isSome) = true ∧
      (main cfg stored prs true execOk now).savedLedger =
        (main cfg stored prs false (fun _ => true) now).savedLedger := by
  by_cases hp : cfg.paused = true
  · simp [main, hp]
  · by_cases he : prs = []
    · subst he; simp [main, hp]
    · rw [main_run cfg stored prs true execOk now (by simpa using hp) he,
        main_run cfg stored prs false (fun _ => true) now (by simpa using hp) he]
      refine ⟨openTabs_launches_dry _ _ _ _ _, ?_, ?_, ?_⟩
      · exact openTabs_opened_of_all_success _ _ _ _ _ _ fun n => rfl
      · rw [List.all_eq_true]
        intro pr hpr
        show (ledgerLookup (openTabs true execOk now (selectedPRs cfg stored prs now) 0
            (cleanupOldNotified stored cfg.notifiedRetentionDays now)).ledger
          (key pr)).isSome = true
        rw [openTabs_ledger_lookup,
          lastNotifiedWithKey_of_all_success true execOk (key pr) _ 0 fun n => rfl]
        have hs := lastWithKey_isSome_of_mem (key pr) (selectedPRs cfg stored prs now) pr hpr rfl
        cases h : lastWithKey (key pr) (selectedPRs cfg stored prs now)
        · rw [h] at hs; simp at hs
        · simp [h]
      · show some (openTabs true execOk now (selectedPRs cfg stored prs now) 0
            (cleanupOldNotified stored cfg.notifiedRetentionDays now)).ledger =
          some (openTabs false (fun _ => true) now (selectedPRs cfg stored prs now) 0
            (cleanupOldNotified stored cfg.notifiedRetentionDays now)).ledger
        exact congrArg some
          (openTabs_congr_success true execOk false (fun _ => true) now _ 0 _ fun n => rfl).1

/-! ## C5: a ledger entry is added iff the open succeeded -/

/-- C5: for a selected PR (at position `i` of the selection, with the
selected PRs carrying pairwise-distinct identity keys — what a real
fetch produces; duplicate keys are the degenerate case treated by the
C10 theorem), the saved ledger holds the entry
`{ at: now, title: pr.title }` under the PR's key exactly when the open
at position `i` reported success, and holds nothing under that key when
it failed — the PR stays eligible for a future run. -/
theorem entry_added_iff_open_succeeded (cfg : Config) (stored : Ledger)
    (prs : List PR) (dryRun : Bool) (execOk : Nat → Bool) (now : Int)
    (i : Nat) (pr : PR)
    (hi : (main cfg stored prs dryRun execOk now).attempted[i]? = some pr)
    (hnd : ((main cfg stored prs dryRun execOk now).attempted.map key).Nodup) :
    ledgerLookup ((main cfg stored prs dryRun execOk now).savedLedger.getD [])
        (key pr) =
      (if openSuccess dryRun execOk i then some (notifiedEntry now pr) else none) := by
  by_cases hp : cfg.paused = true
  · rw [show (main cfg stored prs dryRun execOk now).attempted = [] from by
      simp [main, hp]] at hi
    simp at hi
  · by_cases he : prs = []
    · rw [show (main cfg stored prs dryRun execOk now).attempted = [] from by
        subst he; simp [main, hp]] at hi
      simp at hi
    · rw [main_run cfg stored prs dryRun execOk now (by simpa using hp) he] at hi hnd ⊢
      have hi2 : (selectedPRs cfg stored prs now)[i]? = some pr := hi
      have hnd2 : ((selectedPRs cfg stored prs now).map key).Nodup := hnd
      have honly := nodup_key_unique _ i pr hnd2 hi2
      show ledgerLookup (openTabs dryRun execOk now (selectedPRs cfg stored prs now) 0
          (cleanupOldNotified stored cfg.notifiedRetentionDays now)).ledger (key pr) =
        (if openSuccess dryRun execOk i then some (notifiedEntry now pr) else none)
      rw [openTabs_ledger_lookup]
      cases hs : openSuccess dryRun execOk i
      · have habs := selectedPRs_key_absent cfg stored prs now pr (List.getElem?_mem hi2)
        rw [lastNotifiedWithKey_of_fail dryRun execOk (key pr) _ 0 i pr hi2 rfl
          (by simpa using hs) honly]
        simp [habs]
      · rw [lastNotifiedWithKey_of_last dryRun execOk (key pr) _ 0 i pr hi2 rfl
          (by simpa using hs) fun m q hm hq => honly m q (by omega) hq]
        simp

/-- Witness for C5 at a concrete input: one fresh PR, its open succeeds,
and the saved ledger holds its entry stamped at the run time. -/
theorem entry_added_iff_open_succeeded_witness :
    (main sampleCfg [] [samplePR1] false (fun _ => true) 0).attempted[0]? = some samplePR1 ∧
      ((main sampleCfg [] [samplePR1] false (fun _ => true) 0).attempted.map key).Nodup ∧
      ledgerLookup ((main sampleCfg [] [samplePR1] false (fun _ => true) 0).savedLedger.getD [])
        (key samplePR1) =
        (if openSuccess false (fun _ => true) 0 then some (notifiedEntry 0 samplePR1) else none) :=
  ⟨by decide, by decide,
    entry_added_iff_open_succeeded sampleCfg [] [samplePR1] false (fun _ => true) 0 0
      samplePR1 (by decide) (by decide)⟩

/-! ## C10: duplicate identity keys in one fetch -/

/-- C10: the Diff filter is evaluated against the pruned-ledger snapshot
taken before any tab is opened, so when the fetch holds two PRs with the
same identity key (positions `i < j`, the one at `j` being the last
occurrence of that key) and the key is absent from the pruned ledger,
both occurrences pass the filter (here with `maxTabsToOpen` at least the
fetch length so truncation keeps them) and a tab-open is attempted for
each; with opens succeeding, the later occurrence's entry overwrites the
earlier one in the saved ledger. -/
theorem duplicate_keys_both_attempted_last_wins (cfg : Config) (stored : Ledger)
    (prs : List PR) (dryRun : Bool) (execOk : Nat → Bool) (now : Int)
    (i j : Nat) (pr1 pr2 : PR)
    (hp : cfg.paused = false)
    (hij : i < j)
    (hi : prs[i]? = some pr1) (hj : prs[j]? = some pr2)
    (hkey : key pr2 = key pr1)
    (habsent : ledgerLookup (cleanupOldNotified stored cfg.notifiedRetentionDays now)
      (key pr1) = none)
    (hM : (prs.length : Int) ≤ cfg.maxTabsToOpen)
    (hlast : ∀ m q, j < m → prs[m]? = some q → key q ≠ key pr1)
    (hok : ∀ n, execOk n = true) :
    2 ≤ (main cfg stored prs dryRun execOk now).attempted.countP
        (fun q => decide (key q = key pr1)) ∧
      ledgerLookup ((main cfg stored prs dryRun execOk now).savedLedger.getD [])
        (key pr1) = some (notifiedEntry now pr2) := by
  have hne : prs ≠ [] := by
    intro h
    subst h
    simp at hi
  rw [main_run cfg stored prs dryRun execOk now hp hne]
  have hkeep : ∀ q : PR, key q = key pr1 →
      ((ledgerLookup (cleanupOldNotified stored cfg.notifiedRetentionDays now)
        (key q)).isNone) = true := by
    intro q hq
    rw [hq, habsent]
    rfl
  have hsel : selectedPRs cfg stored prs now = prs.filter fun pr =>
      (ledgerLookup (cleanupOldNotified stored cfg.notifiedRetentionDays now)
        (key pr)).isNone := by
    unfold selectedPRs
    exact jsSliceTo_of_length_le _ _
      (le_trans (by exact_mod_cast List.length_filter_le _ prs) hM)
  constructor
  · show 2 ≤ (selectedPRs cfg stored prs now).countP fun q => decide (key q = key pr1)
    have hcong : prs.countP (fun a => decide (key a = key pr1) &&
        (ledgerLookup (cleanupOldNotified stored cfg.notifiedRetentionDays now)
          (key a)).isNone) = prs.countP (fun a => decide (key a = key pr1)) :=
      List.countP_congr fun x _ => by
        simp only [Bool.and_eq_true, decide_eq_true_eq]
        exact ⟨fun h => h.1, fun h => ⟨h, hkeep x h⟩⟩
    rw [hsel, List.countP_filter, hcong]
    exact two_le_countP _ prs i j pr1 pr2 hij hi hj (by simp) (by simp [hkey])
  · show ledgerLookup (openTabs dryRun execOk now (selectedPRs cfg stored prs now) 0
        (cleanupOldNotified stored cfg.notifiedRetentionDays now)).ledger (key pr1) =
      some (notifiedEntry now pr2)
    rw [openTabs_ledger_lookup,
      lastNotifiedWithKey_of_all_success _ _ _ _ _ (openSuccess_all dryRun execOk hok),
      hsel, lastWithKey_filter _ _ _ hkeep,
      lastWithKey_of_last (key pr1) prs j pr2 hj hkey hlast]

/-- Witness for C10: the fetch holds two records with key
octo/widgets#1 (different titles); both are counted in the selection and
the saved ledger ends with the second record's title under that key. -/
theorem duplicate_keys_both_attempted_last_wins_witness :
    2 ≤ (main sampleCfg [] [samplePR1, samplePR1Retitled] false (fun _ => true) 0).attempted.countP
        (fun q => decide (key q = key samplePR1)) ∧
      ledgerLookup ((main sampleCfg [] [samplePR1, samplePR1Retitled] false
          (fun _ => true) 0).savedLedger.getD [])
        (key samplePR1) = some (notifiedEntry 0 samplePR1Retitled) :=
  duplicate_keys_both_attempted_last_wins sampleCfg [] [samplePR1, samplePR1Retitled]
    false (fun _ => true) 0 0 1 samplePR1 samplePR1Retitled (by decide) (by decide)
    (by decide) (by decide) (by decide) (by decide) (by decide)
    (by
      intro m q hm hq
      have h0 : ([samplePR1, samplePR1Retitled] : List PR)[m]? = none :=
        List.getElem?_eq_none (by simp only [List.length_cons, List.length_nil]; omega)
      rw [h0] at hq
      exact absurd hq (by simp))
    (fun _ => rfl)

end PROpener
